import Mathlib

/-!
Shallow embedding of the netwatch telemetry pipeline (main.go):
the history ring (container/ring as used by the collector), the
statistics pass and drawing pass of `plotRing`, panel parsing
(`parsePanels`), and the color-option handling of `main`.

float64 sample values are modelled as `F`: either NaN or a finite
value represented by a rational.  The comparisons `>` and `<` on
floats are false whenever NaN is involved, which `F.gt`/`F.lt`
reproduce.  Where Go converts a non-finite float64 to int32 the
result is implementation-defined; those places take an explicit
parameter `nanI` standing for that implementation-defined value.
-/

namespace Netwatch

/-- A float64 sample value: NaN, or a finite value as a rational. -/
inductive F where
  | nan : F
  | val : ℚ → F
deriving DecidableEq

/-- Go `a > b` on float64: false when either side is NaN. -/
def F.gt : F → F → Bool
  | F.val a, F.val b => decide (b < a)
  | _, _ => false

/-- Go `a < b` on float64: false when either side is NaN. -/
def F.lt : F → F → Bool
  | F.val a, F.val b => decide (a < b)
  | _, _ => false

/-- `math.IsNaN`. -/
def F.isNaN : F → Bool
  | F.nan => true
  | F.val _ => false

/-- Go `v > 0` on float64 (false for NaN). -/
def F.pos (v : F) : Bool := F.gt v (F.val 0)

/-- One Sample: the `[]float64` a probe emits (a nil slice is `[]`). -/
abbrev Sample := List F

/- Layout constants of main.go (var block at the top of the file). -/

/-- `windowWidth int32 = 180`. -/
def windowWidth : ℤ := 180

/-- `windowMargin int32 = 5`. -/
def windowMargin : ℤ := 5

/-- `panelHeight int32 = 45`. -/
def panelHeight : ℤ := 45

/-- `targetSize int32 = 90`. -/
def targetSize : ℤ := 90

/-- `panelWidth = windowWidth - (windowMargin * 2)`. -/
def panelWidth : ℤ := windowWidth - windowMargin * 2

/-- An RGBA color (`sdl.Color`). -/
structure Color where
  r : ℕ
  g : ℕ
  b : ℕ
  a : ℕ
deriving DecidableEq

/-- Default foreground color `fg`. -/
def fg : Color := ⟨0xFF, 0xFF, 0xFF, 0xFF⟩

/-- Default background color `bg`. -/
def bg : Color := ⟨0x64, 0x64, 0x64, 0xFF⟩

/-- `errColor`. -/
def errColor : Color := ⟨0xFF, 0x64, 0x64, 0xFF⟩

/-- `plotColors`: the per-series palette. -/
def plotColors : List Color :=
  [⟨0x00, 0xFF, 0x00, 0xFF⟩, ⟨0x00, 0x00, 0xFF, 0xFF⟩, ⟨0xFF, 0x7F, 0x00, 0xFF⟩]

/-- The fixed green used in the non-positive branch, `SetDrawColor(0x00,0xFF,0x00,0xFF)`. -/
def noDataGreen : Color := ⟨0x00, 0xFF, 0x00, 0xFF⟩

/-! ## Statistics pass of `plotRing` (main.go lines 124-151)

`var minv, maxv, avg, lst, tot float64 = 10000.0, 0, 0, 0, 0` and
`var i int32 = 0`, then one `r.Do` walk updating them per value. -/

/-- The accumulator record of the statistics pass.  `cnt` is the
positive-sample counter `i` (an int32 in the source; modelled as ℕ,
faithful while the count stays below 2^31). -/
structure Stats where
  minv : ℚ
  maxv : ℚ
  lst : F
  tot : ℚ
  cnt : ℕ
deriving DecidableEq

/-- Initial accumulator values of `plotRing`. -/
def statsInit : Stats := ⟨10000, 0, F.val 0, 0, 0⟩

/-- The body of the inner `for _, v := range data` loop of the first
`r.Do`: `lst = v`; `if v > maxv`; `if v < minv`; `if v > 0`.  When `v`
is NaN every comparison is false and only `lst` changes. -/
def statsVal (s : Stats) (v : F) : Stats :=
  match v with
  | F.nan => { s with lst := F.nan }
  | F.val q =>
      { minv := if q < s.minv then q else s.minv
        maxv := if s.maxv < q then q else s.maxv
        lst := F.val q
        tot := if 0 < q then s.tot + q else s.tot
        cnt := if 0 < q then s.cnt + 1 else s.cnt }

/-- One slot of the first `r.Do`: fold the loop body over the slot's data. -/
def statsSample (s : Stats) (d : Sample) : Stats := d.foldl statsVal s

/-- The whole first `r.Do` walk over the ring contents in traversal order. -/
def statsList (l : List Sample) : Stats := l.foldl statsSample statsInit

/-- `avg = tot / float64(i)`: Go's 0.0/0.0 is NaN; for a positive count
the division is exact rational division. -/
def statsAvg (s : Stats) : F :=
  if s.cnt = 0 then F.nan else F.val (s.tot / (s.cnt : ℚ))

/-! ## History ring (container/ring as used by main.go)

`container/ring` is a circular linked list; the program holds one node
pointer per panel.  A node-plus-ring pair is modelled as the list of
slot contents read off starting at the held node and following `Next`:
`ring.New(n)` gives `n` nil slots; `r.Value = v; r = r.Next()` sets index
0 and rotates the view left by one; `r.Do` visits the view in order. -/

/-- A ring as seen from the currently held node: slot 0 is the node the
panel pointer designates, successive entries follow `Next`.  `none` is a
slot whose `Value` was never assigned (nil interface). -/
abbrev RingBuf := List (Option Sample)

/-- `ring.New(n)`: n slots, all nil. -/
def ringNew (n : ℕ) : RingBuf := List.replicate n none

/-- The collector's write: `panel.ring.Value = v; panel.ring = panel.ring.Next()`
(main.go lines 343-344): set the current slot, then advance the held pointer,
i.e. rotate the view left by one. -/
def ringWrite (r : RingBuf) (v : Sample) : RingBuf :=
  (r.set 0 (some v)).rotate 1

/-- A sequence of successful collection writes, oldest first. -/
def writeAll (r : RingBuf) (vs : List Sample) : RingBuf := vs.foldl ringWrite r

/-- `r.Do` visits slots in the view's order; a nil slot's failed type
assertion `x.([]float64)` leaves `data` as the nil slice, i.e. `[]`. -/
def ringSamples (r : RingBuf) : List Sample := r.map (fun o => o.getD [])

/-! ## Collector (main.go lines 341-348)

The per-panel `select` with a `default` branch: on a ready sample write
the ring and keep the fresh border color, otherwise leave the ring alone
and use `errColor` for this tick. -/

/-- One panel's collection attempt in one tick.  `incoming = none` is the
`default` (no sample ready) branch. -/
def collectStep (r : RingBuf) (incoming : Option Sample) (fresh : Color) : RingBuf × Color :=
  match incoming with
  | some v => (ringWrite r v, fresh)
  | none => (r, errColor)

/-! ## Drawing pass of `plotRing` (main.go lines 154-184) -/

/-- Go truncation of a float64 to an integer type: toward zero. -/
def ftrunc (q : ℚ) : ℤ := if 0 ≤ q then ⌊q⌋ else ⌈q⌉

/-- `vh(v) = int32((v/maxv)*float64(panelHeight-2)) - 1`.  For NaN input,
or division by a zero `maxv` (which makes the product non-finite), the
int32 conversion result is the implementation-defined `nanI`. -/
def vh (nanI : ℤ) (maxv : ℚ) : F → ℤ
  | F.nan => nanI - 1
  | F.val q => if maxv = 0 then nanI - 1 else ftrunc (q / maxv * ((panelHeight : ℚ) - 2)) - 1

/-- One `renderer.DrawLine(x, y1, x, y2)` call with the draw color that
was active when it was issued. -/
structure Seg where
  x : ℤ
  y1 : ℤ
  y2 : ℤ
  color : Color
deriving DecidableEq

/-- State carried through the drawing pass: the renderer's current draw
color (persists when no `SetDrawColor` runs) and the segments drawn so
far.  The `h` variable is reassigned before every use, so it needs no
carrying. -/
structure DrawSt where
  color : Color
  segs : List Seg
deriving DecidableEq

/-- The chart baseline `vs + windowMargin + panelHeight + 13`. -/
def baseY (vs : ℤ) : ℤ := vs + windowMargin + panelHeight + 13

/-- The body of `for j, v := range data` in the second `r.Do`
(main.go lines 161-182): pick `h` and the draw color by the value's
class, then the segment endpoints by the series index and the previous
column's length, and issue one DrawLine. -/
def drawVal (nanI : ℤ) (maxv : ℚ) (vs icol : ℤ) (prev : List F)
    (st : DrawSt) (j : ℕ) (v : F) : DrawSt :=
  let hc : ℤ × Color :=
    if v.isNaN then (panelHeight - 1, errColor)
    else if v.pos then (vh nanI maxv v, plotColors.getD j st.color)
    else (2, noDataGreen)
  let x : ℤ := windowMargin + icol
  let yy : ℤ × ℤ :=
    if 0 < j ∧ j < prev.length then
      (baseY vs - min (vh nanI maxv v) (vh nanI maxv (prev.getD j (F.val 0))),
       baseY vs - max (vh nanI maxv v) (vh nanI maxv (prev.getD j (F.val 0))))
    else
      (baseY vs - hc.1, baseY vs)
  { color := hc.2, segs := st.segs ++ [⟨x, yy.1, yy.2, hc.2⟩] }

/-- One column (one ring slot) of the drawing pass. -/
def drawSample (nanI : ℤ) (maxv : ℚ) (vs icol : ℤ) (prev data : List F)
    (st : DrawSt) : DrawSt :=
  data.enum.foldl (fun s jv => drawVal nanI maxv vs icol prev s jv.1 jv.2) st

/-- Column-fold state: `data` is the variable the source reuses across
both `r.Do` walks (so the first column's `prev` is the last sample the
statistics pass touched), plus the drawing state. -/
structure PassSt where
  data : List F
  st : DrawSt
deriving DecidableEq

/-- The whole second `r.Do` walk.  Entering it, the draw color is the
border color set at the top of `plotRing` and `data` still holds the
last slot the statistics pass read. -/
def drawPass (nanI : ℤ) (maxv : ℚ) (vs : ℤ) (initColor : Color)
    (samples : List Sample) : List Seg :=
  (samples.enum.foldl
    (fun (p : PassSt) iv =>
      { data := iv.2
        st := drawSample nanI maxv vs (iv.1 : ℤ) p.data iv.2 p.st })
    { data := samples.getLastD [], st := ⟨initColor, []⟩ }).st.segs

/-- What one `plotRing` call produces, beyond text: the border/label
color it was handed, the statistics, the average, and the drawn columns. -/
structure RenderOut where
  borderColor : Color
  stats : Stats
  avgF : F
  segs : List Seg

/-- `plotRing` (main.go lines 123-187): border and label in the given
color, the statistics walk, `avg = tot/float64(i)`, then the drawing walk. -/
def plotRing (nanI : ℤ) (r : RingBuf) (tgtnum : ℤ) (fgc : Color) : RenderOut :=
  let samples := ringSamples r
  let s := statsList samples
  let vs := tgtnum * targetSize + 1
  ⟨fgc, s, statsAvg s, drawPass nanI s.maxv vs fgc samples⟩

/-! ## Panel parsing (`parsePanels`, main.go lines 195-229) -/

/-- `strings.Split(s, ":")`: split on every colon; the empty string
yields `[""]`. -/
def splitColon : List Char → List (List Char)
  | [] => [[]]
  | c :: rest =>
      let r := splitColon rest
      if c = ':' then [] :: r
      else
        match r with
        | [] => [[c]]
        | h :: t => (c :: h) :: t

/-- The registered probe type names (keys of the `probes` map). -/
def probeNames : List String := ["sine", "lagsine", "multi"]

/-- `fmt`'s `%q` on a plain token (no characters needing escapes). -/
def quoteStr (s : String) : String := "\"" ++ s ++ "\""

/-- One parsed panel.  The probe constructors only launch a goroutine and
return a nil error, so construction cannot fail for the registered
probes; the channel is not modelled.  `ringCap` records the
`ring.New(int(panelWidth - 2))` capacity. -/
structure Panel where
  typ : String
  target : String
  ringCap : ℕ
deriving DecidableEq

/-- The per-argument body of the `parsePanels` loop: split on colons,
demand exactly two tokens, look the type up in the probe registry, and
build the panel with its ring. -/
def parseOne (arg : String) : Except String Panel :=
  if ((splitColon arg.data).map List.asString).length ≠ 2 then
    Except.error ("Could not parse panel: " ++ quoteStr arg)
  else if probeNames.contains (((splitColon arg.data).map List.asString).getD 0 "") then
    Except.ok ⟨((splitColon arg.data).map List.asString).getD 0 "",
      ((splitColon arg.data).map List.asString).getD 1 "", (panelWidth - 2).toNat⟩
  else
    Except.error ("Unsupported panel type: "
      ++ quoteStr (((splitColon arg.data).map List.asString).getD 0 ""))

/-- `parsePanels`: bounds checks (`len(args) < 1`, `len(args) > 255`,
since `int(^byte(0)) = 255`), then the loop, aborting on the first
failing argument. -/
def parsePanels (args : List String) : Except String (List Panel) :=
  if args.length < 1 then Except.error "No args specified"
  else if 255 < args.length then Except.error "Too many targets specified"
  else args.mapM parseOne

/-! ## Color options (main.go lines 271-283)

`if len(bgColor) == 6 { Sscanf(bgColor, "%2x%2x%2x", ...) }`: a string
whose byte length is not exactly 6 is never even parsed; a 6-byte string
that fails the scan reaches `errbox`, which exits non-zero. -/

/-- Hex digit test for the `%x` scanning verb. -/
def isHexDigit (c : Char) : Bool :=
  c.isDigit || ('a' ≤ c && c ≤ 'f') || ('A' ≤ c && c ≤ 'F')

/-- Value of a hex digit. -/
def hexVal (c : Char) : ℕ :=
  if c.isDigit then c.toNat - 48
  else if 'a' ≤ c && c ≤ 'f' then c.toNat - 87
  else c.toNat - 55

/-- fmt's `isSpace` rune table (the `space` ranges in fmt/scan.go). -/
def isFmtSpace (c : Char) : Bool :=
  let n := c.toNat
  (0x9 ≤ n && n ≤ 0xd) || n = 0x20 || n = 0x85 || n = 0xa0 || n = 0x1680
    || (0x2000 ≤ n && n ≤ 0x200a) || n = 0x2028 || n = 0x2029 || n = 0x202f
    || n = 0x205f || n = 0x3000

/-- The `SkipSpace` a scanning verb starts with, under the verb's rune
budget (the `%2x` width; every rune read, a skipped space included,
counts against it): spaces are discarded; a bare newline, or a carriage
return directly before one, is Sscanf's `unexpected newline` scan error
(`nlIsSpace` is false for Sscanf).  Returns the remaining budget and
input, or `none` on that error. -/
def skipSpace2 : ℕ → List Char → Option (ℕ × List Char)
  | 0, rest => some (0, rest)
  | b + 1, [] => some (b + 1, [])
  | b + 1, c :: rest =>
      if c = '\n' then none
      else if c = '\r' then
        match rest with
        | c2 :: _ => if c2 = '\n' then none else skipSpace2 b rest
        | [] => skipSpace2 b []
      else if isFmtSpace c then skipSpace2 b rest
      else some (b + 1, c :: rest)

/-- One `%2x` verb scanning into a `*uint8`: skip leading spaces within
the two-rune width, then greedily read one or two hex digits (an
unsigned `%x` accepts no sign and no base prefix); it fails when the
width or input is exhausted before a digit, or the next rune is not a
hex digit. -/
def scanHexVerb (s : List Char) : Option (ℕ × List Char) :=
  match skipSpace2 2 s with
  | none => none
  | some (0, _) => none
  | some (_ + 1, []) => none
  | some (b + 1, c :: rest) =>
      if isHexDigit c then
        match b, rest with
        | 0, _ => some (hexVal c, rest)
        | _ + 1, [] => some (hexVal c, [])
        | _ + 1, c2 :: rest2 =>
            if isHexDigit c2 then some (16 * hexVal c + hexVal c2, rest2)
            else some (hexVal c, rest)
      else none

/-- `fmt.Sscanf(s, "%2x%2x%2x", &r, &g, &b)`: three `%2x` reads in
sequence; trailing unconsumed input is not an error, any verb failure
is. -/
def sscanfHex3 (s : String) : Option (ℕ × ℕ × ℕ) :=
  match scanHexVerb s.data with
  | none => none
  | some (r, rest1) =>
      match scanHexVerb rest1 with
      | none => none
      | some (g, rest2) =>
          match scanHexVerb rest2 with
          | none => none
          | some (b, _) => some (r, g, b)

/-- Outcome of one color option in `main`. -/
inductive ColorOutcome where
  | ignored
  | applied (r g b : ℕ)
  | fatalExit
deriving DecidableEq

/-- The `len(color) == 6` guard plus the scan: only 6-byte strings are
parsed at all; of those, a failed scan hits `errbox` (non-zero exit),
anything else silently keeps the default color. -/
def applyColorOption (s : String) : ColorOutcome :=
  if s.utf8ByteSize = 6 then
    match sscanfHex3 s with
    | some (r, g, b) => ColorOutcome.applied r g b
    | none => ColorOutcome.fatalExit
  else ColorOutcome.ignored

/-! ## Helper lemmas: ring writes -/

theorem ringWrite_eq (r : RingBuf) (v : Sample) (h : r ≠ []) :
    ringWrite r v = r.tail ++ [some v] := by
  cases r with
  | nil => exact absurd rfl h
  | cons a t => simp [ringWrite, List.rotate_cons_succ]

theorem ringWrite_ne_nil (r : RingBuf) (v : Sample) (h : r ≠ []) :
    ringWrite r v ≠ [] := by
  rw [ringWrite_eq r v h]
  simp

theorem writeAll_traverse (vs : List Sample) : ∀ (r : RingBuf), r ≠ [] →
    writeAll r vs = (r ++ vs.map some).drop vs.length := by
  induction vs with
  | nil => intro r _; simp [writeAll]
  | cons v vs ih =>
      intro r hr
      have hstep : writeAll r (v :: vs) = writeAll (r.tail ++ [some v]) vs := by
        simp [writeAll, ringWrite_eq r v hr]
      rw [hstep, ih (r.tail ++ [some v]) (by simp)]
      cases r with
      | nil => exact absurd rfl hr
      | cons a t => simp [List.length_cons]

/-! ## Claim C2 -/

/-- Claim C2: for any capacity-`N` history ring, after `N + k` successful
collection writes (`k ≥ 0`) the ring's traversal holds exactly the most
recent `N` samples in write order, the oldest having been overwritten
first; with `k = 0` it holds exactly the last `N` samples. -/
theorem ring_retains_last_N (N k : ℕ) (vs : List Sample) (hN : 0 < N)
    (hlen : vs.length = N + k) :
    writeAll (ringNew N) vs = (vs.drop k).map some := by
  have hne : ringNew N ≠ [] := by
    simp [ringNew]
    omega
  rw [writeAll_traverse vs (ringNew N) hne, hlen]
  have h1 : (ringNew N ++ vs.map some).drop (N + k)
      = ((ringNew N ++ vs.map some).drop N).drop k := by
    rw [List.drop_drop]
  have h2 : (ringNew N ++ vs.map some).drop N = vs.map some :=
    List.drop_left' (by simp [ringNew])
  rw [h1, h2, List.map_drop]

/-- Witness for C2: capacity 10, twelve writes of samples 1..12 leave the
ring holding samples 3..12 in order. -/
theorem ring_retains_last_N_witness :
    writeAll (ringNew 10)
      [[F.val 1], [F.val 2], [F.val 3], [F.val 4], [F.val 5], [F.val 6],
       [F.val 7], [F.val 8], [F.val 9], [F.val 10], [F.val 11], [F.val 12]]
    = [[F.val 3], [F.val 4], [F.val 5], [F.val 6], [F.val 7], [F.val 8],
       [F.val 9], [F.val 10], [F.val 11], [F.val 12]].map some := by
  have h := ring_retains_last_N 10 2
    [[F.val 1], [F.val 2], [F.val 3], [F.val 4], [F.val 5], [F.val 6],
     [F.val 7], [F.val 8], [F.val 9], [F.val 10], [F.val 11], [F.val 12]]
    (by decide) (by decide)
  simpa using h

/-! ## Helper lemmas: the statistics fold -/

/-- The finite (non-NaN) values of a list, in order. -/
def finVals (l : List F) : List ℚ :=
  l.filterMap (fun v => match v with
    | F.val q => some q
    | F.nan => none)

/-- The strictly positive values of a list, in order. -/
def posVals (l : List F) : List ℚ :=
  l.filterMap (fun v => match v with
    | F.val q => if 0 < q then some q else none
    | F.nan => none)

theorem mem_posVals_pos {l : List F} {q : ℚ} (h : q ∈ posVals l) : 0 < q := by
  rcases List.mem_filterMap.mp h with ⟨v, _, hv⟩
  cases v with
  | nan => simp at hv
  | val p =>
      by_cases hp : 0 < p
      · simp [hp] at hv
        exact hv ▸ hp
      · simp [hp] at hv

/-- One value of the statistics loop, written with `min`/`max`. -/
theorem statsVal_val (s : Stats) (q : ℚ) :
    statsVal s (F.val q) =
      ⟨min s.minv q, max s.maxv q, F.val q,
       if 0 < q then s.tot + q else s.tot,
       if 0 < q then s.cnt + 1 else s.cnt⟩ := by
  have hmin : (if q < s.minv then q else s.minv) = min s.minv q := by
    rcases lt_or_le q s.minv with h | h
    · rw [if_pos h, min_eq_right (le_of_lt h)]
    · rw [if_neg (not_lt.mpr h), min_eq_left h]
  have hmax : (if s.maxv < q then q else s.maxv) = max s.maxv q := by
    rcases lt_or_le s.maxv q with h | h
    · rw [if_pos h, max_eq_right (le_of_lt h)]
    · rw [if_neg (not_lt.mpr h), max_eq_left h]
  simp [statsVal, hmin, hmax]

/-- The statistics fold over any value list, characterised per field:
running min/max over the finite values, `lst` the final value, and the
sum and count of the positive values. -/
theorem getLast?_getD_cons (a d : F) (l : List F) :
    (a :: l).getLast?.getD d = l.getLast?.getD a := by
  rw [← List.getLastD_eq_getLast?, ← List.getLastD_eq_getLast?, List.getLastD_cons]

theorem statsFold_eq (vals : List F) : ∀ (s : Stats),
    vals.foldl statsVal s =
      ⟨(finVals vals).foldl min s.minv,
       (finVals vals).foldl max s.maxv,
       vals.getLastD s.lst,
       s.tot + (posVals vals).sum,
       s.cnt + (posVals vals).length⟩ := by
  induction vals with
  | nil => intro s; simp [finVals, posVals]
  | cons v vs ih =>
      intro s
      cases v with
      | nan =>
          rw [List.foldl_cons, show statsVal s F.nan = { s with lst := F.nan } from rfl, ih]
          simp [finVals, posVals, getLast?_getD_cons]
      | val q =>
          rw [List.foldl_cons, statsVal_val, ih]
          by_cases hq : 0 < q
          · simp [finVals, posVals, hq, add_assoc, getLast?_getD_cons, Nat.add_comm]
          · simp [finVals, posVals, hq, getLast?_getD_cons]

/-- `statsList` is the statistics fold over the flattened sample list. -/
theorem statsList_eq_fold (l : List Sample) :
    statsList l = l.flatten.foldl statsVal statsInit := by
  rw [statsList, List.foldl_flatten]
  rfl

theorem foldl_max_mem (l : List ℚ) : ∀ (a : ℚ), l.foldl max a = a ∨ l.foldl max a ∈ l := by
  induction l with
  | nil => intro a; simp
  | cons q l ih =>
      intro a
      rcases ih (max a q) with h | h
      · rcases max_choice a q with hm | hm
        · exact Or.inl (by rw [List.foldl_cons, h, hm])
        · exact Or.inr (by rw [List.foldl_cons, h, hm]; exact List.mem_cons_self q l)
      · exact Or.inr (List.mem_cons_of_mem q h)

theorem le_foldl_max (l : List ℚ) : ∀ (a : ℚ), a ≤ l.foldl max a ∧ ∀ q ∈ l, q ≤ l.foldl max a := by
  induction l with
  | nil => intro a; simp
  | cons p l ih =>
      intro a
      rcases ih (max a p) with ⟨h1, h2⟩
      refine ⟨le_trans (le_max_left a p) h1, ?_⟩
      intro q hq
      rcases List.mem_cons.mp hq with rfl | hq
      · exact le_trans (le_max_right a q) h1
      · exact h2 q hq

/-- Non-positive values never move a max fold whose accumulator is
already non-negative. -/
theorem foldl_max_fin_eq_pos (l : List F) : ∀ (a : ℚ), 0 ≤ a →
    (finVals l).foldl max a = (posVals l).foldl max a := by
  induction l with
  | nil => intro a _; rfl
  | cons v l ih =>
      intro a ha
      cases v with
      | nan => simpa [finVals, posVals] using ih a ha
      | val q =>
          by_cases hq : 0 < q
          · have := ih (max a q) (le_trans ha (le_max_left a q))
            simpa [finVals, posVals, hq] using this
          · have hmax : max a q = a := max_eq_left (le_trans (not_lt.mp hq) ha)
            have := ih a ha
            simpa [finVals, posVals, hq, hmax] using this

/-! ## Claim C1 -/

/-- Claim C1 (amended): for a ring whose samples contain positive values
(`ps`, in scan order, nonempty) and possibly interspersed non-positive or
NaN entries, the statistics pass computes `maxv` = the maximum of the
positive values and `avg` = their sum over their count; `minv`, however,
is the minimum of the 10000 initial accumulator and of all finite
(non-NaN) values, non-positive entries included; and `lst` is the last
series value scanned, i.e. the final (not first) series value of the
most recently written sample. -/
theorem stats_pass_values (samples : List Sample) (ps : List ℚ)
    (hps : posVals samples.flatten = ps) (hne : ps ≠ []) :
    ((statsList samples).maxv ∈ ps ∧ (∀ q ∈ ps, q ≤ (statsList samples).maxv))
    ∧ statsAvg (statsList samples) = F.val (ps.sum / (ps.length : ℚ))
    ∧ (statsList samples).minv = (finVals samples.flatten).foldl min 10000
    ∧ (statsList samples).lst = samples.flatten.getLastD (F.val 0) := by
  have hfold := statsFold_eq samples.flatten statsInit
  have hs : statsList samples = samples.flatten.foldl statsVal statsInit :=
    statsList_eq_fold samples
  rw [hs, hfold]
  have hmax : (finVals samples.flatten).foldl max (statsInit.maxv)
      = ps.foldl max 0 := by
    rw [show statsInit.maxv = (0 : ℚ) from rfl,
      foldl_max_fin_eq_pos samples.flatten 0 le_rfl, hps]
  constructor
  · constructor
    · rw [show statsInit.maxv = (0 : ℚ) from rfl] at hmax ⊢
      rw [hmax]
      rcases foldl_max_mem ps 0 with h0 | hmem
      · exfalso
        rcases List.exists_mem_of_ne_nil ps hne with ⟨q, hq⟩
        have hqpos : 0 < q := mem_posVals_pos (hps ▸ hq)
        have hle : q ≤ ps.foldl max 0 := (le_foldl_max ps 0).2 q hq
        rw [h0] at hle
        exact absurd (lt_of_lt_of_le hqpos hle) (lt_irrefl 0)
      · exact hmem
    · intro q hq
      rw [show statsInit.maxv = (0 : ℚ) from rfl] at hmax ⊢
      rw [hmax]
      exact (le_foldl_max ps 0).2 q hq
  refine ⟨?_, rfl, rfl⟩
  have hlen : ps.length ≠ 0 := fun h => hne (List.length_eq_zero.mp h)
  have hcnt : statsInit.cnt + (posVals samples.flatten).length = ps.length := by
    rw [hps]
    exact Nat.zero_add _
  have htot : statsInit.tot + (posVals samples.flatten).sum = ps.sum := by
    rw [hps]
    exact zero_add _
  simp only [statsAvg, hcnt, htot, if_neg hlen]

/-- Claim C1 counterexample: a ring holding the sample `[2, 3]` then the
sample `[-1, 4]`.  The positive values are 2, 3, 4, so the claim
predicts `min = 2` and `last = -1` (first series of the newest sample);
the code computes `minv = -1` (the non-positive entry is not ignored)
and `lst = 4` (the final series value). -/
theorem stats_pass_claim_cex :
    posVals ([[F.val 2, F.val 3], [F.val (-1), F.val 4]] : List Sample).flatten = [2, 3, 4]
    ∧ (statsList [[F.val 2, F.val 3], [F.val (-1), F.val 4]]).minv = -1
    ∧ (statsList [[F.val 2, F.val 3], [F.val (-1), F.val 4]]).lst = F.val 4
    ∧ ¬((statsList [[F.val 2, F.val 3], [F.val (-1), F.val 4]]).minv = 2
        ∧ (statsList [[F.val 2, F.val 3], [F.val (-1), F.val 4]]).lst = F.val (-1)) := by
  with_unfolding_all decide

/-- Witness for C1: the amended statement applied to the concrete ring
holding samples `[1]` then `[2]`, whose positive values are `[1, 2]`. -/
theorem stats_pass_values_witness :
    ((statsList [[F.val 1], [F.val 2]]).maxv ∈ ([1, 2] : List ℚ)
      ∧ (∀ q ∈ ([1, 2] : List ℚ), q ≤ (statsList [[F.val 1], [F.val 2]]).maxv))
    ∧ statsAvg (statsList [[F.val 1], [F.val 2]])
        = F.val (([1, 2] : List ℚ).sum / ((([1, 2] : List ℚ).length) : ℚ))
    ∧ (statsList [[F.val 1], [F.val 2]]).minv
        = (finVals ([[F.val 1], [F.val 2]] : List Sample).flatten).foldl min 10000
    ∧ (statsList [[F.val 1], [F.val 2]]).lst
        = ([[F.val 1], [F.val 2]] : List Sample).flatten.getLastD (F.val 0) :=
  stats_pass_values [[F.val 1], [F.val 2]] [1, 2]
    (by with_unfolding_all decide) (by decide)

/-! ## Claim C3 -/

/-- Claim C3 (amended): a NaN value never touches the min/max/sum/count
accumulators, and its column is always drawn in the error color; it is a
full-height column when it is the first series (`j = 0`) or the previous
column has no value at its series index, but for a higher series index
with a previous value present the segment instead spans between the
projected heights of the NaN conversion and of the previous value, so it
need not be full-height. -/
theorem nan_renders (nanI : ℤ) (maxv : ℚ) (vs icol : ℤ) (prev : List F)
    (st : DrawSt) (j : ℕ) :
    (∀ s : Stats, (statsVal s F.nan).minv = s.minv ∧ (statsVal s F.nan).maxv = s.maxv
      ∧ (statsVal s F.nan).tot = s.tot ∧ (statsVal s F.nan).cnt = s.cnt)
    ∧ (drawVal nanI maxv vs icol prev st j F.nan).color = errColor
    ∧ ((j = 0 ∨ prev.length ≤ j) →
        drawVal nanI maxv vs icol prev st j F.nan =
          ⟨errColor, st.segs ++
            [⟨windowMargin + icol, baseY vs - (panelHeight - 1), baseY vs, errColor⟩]⟩)
    ∧ ((0 < j ∧ j < prev.length) →
        drawVal nanI maxv vs icol prev st j F.nan =
          ⟨errColor, st.segs ++
            [⟨windowMargin + icol,
              baseY vs - min (vh nanI maxv F.nan) (vh nanI maxv (prev.getD j (F.val 0))),
              baseY vs - max (vh nanI maxv F.nan) (vh nanI maxv (prev.getD j (F.val 0))),
              errColor⟩]⟩) := by
  refine ⟨fun s => ⟨rfl, rfl, rfl, rfl⟩, ?_, ?_, ?_⟩
  · by_cases hc : 0 < j ∧ j < prev.length <;> simp [drawVal, F.isNaN, hc]
  · intro hj
    have hc : ¬(0 < j ∧ j < prev.length) := by
      rcases hj with hj | hj
      · exact fun h => absurd h.1 (by omega)
      · exact fun h => absurd h.2 (by omega)
    simp [drawVal, F.isNaN, hc]
  · intro hc
    simp [drawVal, F.isNaN, hc]

/-- Counterexample for C3 as stated: in the ring holding `[1, 1]` then
`[1, NaN]`, the NaN (series index 1 of the newest column) gets segment
`⟨6, 65, 22, errColor⟩` under the modelled NaN conversion value 0:
error-colored, but not the full-height column `y1 = 20, y2 = 64` in
either orientation. -/
theorem nan_renders_claim_cex :
    (plotRing 0 [some [F.val 1, F.val 1], some [F.val 1, F.nan]] 0 fg).segs.getD 3
        ⟨0, 0, 0, noDataGreen⟩ = ⟨6, 65, 22, errColor⟩
    ∧ ¬(((plotRing 0 [some [F.val 1, F.val 1], some [F.val 1, F.nan]] 0 fg).segs.getD 3
          ⟨0, 0, 0, noDataGreen⟩).y1 = baseY 1 - (panelHeight - 1)
        ∧ ((plotRing 0 [some [F.val 1, F.val 1], some [F.val 1, F.nan]] 0 fg).segs.getD 3
          ⟨0, 0, 0, noDataGreen⟩).y2 = baseY 1)
    ∧ ¬(((plotRing 0 [some [F.val 1, F.val 1], some [F.val 1, F.nan]] 0 fg).segs.getD 3
          ⟨0, 0, 0, noDataGreen⟩).y1 = baseY 1
        ∧ ((plotRing 0 [some [F.val 1, F.val 1], some [F.val 1, F.nan]] 0 fg).segs.getD 3
          ⟨0, 0, 0, noDataGreen⟩).y2 = baseY 1 - (panelHeight - 1)) := by
  with_unfolding_all decide

/-- Witness for C3 (amended): the concrete instance behind the
counterexample, at series index 1 with previous column `[1, 1]`. -/
theorem nan_renders_witness :
    (∀ s : Stats, (statsVal s F.nan).minv = s.minv ∧ (statsVal s F.nan).maxv = s.maxv
      ∧ (statsVal s F.nan).tot = s.tot ∧ (statsVal s F.nan).cnt = s.cnt)
    ∧ (drawVal 0 1 1 1 [F.val 1, F.val 1] ⟨fg, []⟩ 1 F.nan).color = errColor
    ∧ ((1 = 0 ∨ ([F.val 1, F.val 1] : List F).length ≤ 1) →
        drawVal 0 1 1 1 [F.val 1, F.val 1] ⟨fg, []⟩ 1 F.nan =
          ⟨errColor, ([] : List Seg) ++
            [⟨windowMargin + 1, baseY 1 - (panelHeight - 1), baseY 1, errColor⟩]⟩)
    ∧ ((0 < 1 ∧ 1 < ([F.val 1, F.val 1] : List F).length) →
        drawVal 0 1 1 1 [F.val 1, F.val 1] ⟨fg, []⟩ 1 F.nan =
          ⟨errColor, ([] : List Seg) ++
            [⟨windowMargin + 1,
              baseY 1 - min (vh 0 1 F.nan) (vh 0 1 (([F.val 1, F.val 1] : List F).getD 1 (F.val 0))),
              baseY 1 - max (vh 0 1 F.nan) (vh 0 1 (([F.val 1, F.val 1] : List F).getD 1 (F.val 0))),
              errColor⟩]⟩) :=
  nan_renders 0 1 1 1 [F.val 1, F.val 1] ⟨fg, []⟩ 1

/-! ## Claim C4 -/

/-- Claim C4: on a tick with no sample ready the collection attempt
takes the `default` branch: the panel's ring (every slot and the held
cursor node) is unchanged and the panel is rendered with the error
border color; on a later tick with a sample ready the ring is written
and the fresh color is used again, so staleness lasts that tick only. -/
theorem stale_tick_no_write (r : RingBuf) (fresh : Color) :
    collectStep r none fresh = (r, errColor)
    ∧ (∀ nanI tgtnum, (plotRing nanI (collectStep r none fresh).1 tgtnum
        (collectStep r none fresh).2).borderColor = errColor)
    ∧ (∀ s, collectStep r (some s) fresh = (ringWrite r s, fresh)) :=
  ⟨rfl, fun _ _ => rfl, fun _ => rfl⟩

/-! ## Claim C5 -/

/-- Claim C5 (amended): for a positive value `v` with panel-wide ring
maximum `maxv` (so `0 < v ≤ maxv`), a first-series column (or one whose
previous column lacks its series index) is drawn from the baseline up to
`vh(v) = trunc((v/maxv)*(panelHeight-2)) - 1`: within one pixel below
`(v/maxv)*(panelHeight-2) - 1` — a `(panelHeight-2)`-scaling with
truncation and a 1-pixel offset, not an exact `v/maxv * panelHeight` —
and under a larger ring maximum the same `v` draws no taller. -/
theorem column_height_scaling (nanI : ℤ) (maxv : ℚ) (vs icol : ℤ)
    (prev : List F) (st : DrawSt) (j : ℕ) (v : ℚ)
    (hv : 0 < v) (hm : v ≤ maxv) (hj : j = 0 ∨ prev.length ≤ j) :
    (drawVal nanI maxv vs icol prev st j (F.val v)).segs
      = st.segs ++ [⟨windowMargin + icol, baseY vs - vh nanI maxv (F.val v), baseY vs,
          plotColors.getD j st.color⟩]
    ∧ ((vh nanI maxv (F.val v) : ℚ) ≤ v / maxv * ((panelHeight : ℚ) - 2) - 1)
    ∧ (v / maxv * ((panelHeight : ℚ) - 2) - 2 < (vh nanI maxv (F.val v) : ℚ))
    ∧ (∀ M2 : ℚ, maxv < M2 → vh nanI M2 (F.val v) ≤ vh nanI maxv (F.val v)) := by
  have hmax : (0 : ℚ) < maxv := lt_of_lt_of_le hv hm
  have hmne : maxv ≠ 0 := ne_of_gt hmax
  have harg : (0 : ℚ) ≤ v / maxv * ((panelHeight : ℚ) - 2) := by
    have h1 : (0 : ℚ) ≤ v / maxv := le_of_lt (div_pos hv hmax)
    have h2 : (0 : ℚ) ≤ (panelHeight : ℚ) - 2 := by norm_num [panelHeight]
    exact mul_nonneg h1 h2
  have hvh : vh nanI maxv (F.val v) = ⌊v / maxv * ((panelHeight : ℚ) - 2)⌋ - 1 := by
    simp [vh, hmne, ftrunc, harg]
  have hc : ¬(0 < j ∧ j < prev.length) := by
    rcases hj with hj | hj
    · exact fun h => absurd h.1 (by omega)
    · exact fun h => absurd h.2 (by omega)
  refine ⟨?_, ?_, ?_, ?_⟩
  · have hpos : F.pos (F.val v) = true := by
      simp [F.pos, F.gt, hv]
    simp [drawVal, F.isNaN, hpos, hc]
  · rw [hvh]
    push_cast
    have := Int.floor_le (v / maxv * ((panelHeight : ℚ) - 2))
    linarith
  · rw [hvh]
    push_cast
    have := Int.sub_one_lt_floor (v / maxv * ((panelHeight : ℚ) - 2))
    linarith
  · intro M2 hM2
    have hM2pos : (0 : ℚ) < M2 := lt_trans hmax hM2
    have hdiv : v / M2 ≤ v / maxv :=
      div_le_div_of_nonneg_left (le_of_lt hv) hmax (le_of_lt hM2)
    have hmul : v / M2 * ((panelHeight : ℚ) - 2) ≤ v / maxv * ((panelHeight : ℚ) - 2) := by
      have h2 : (0 : ℚ) ≤ (panelHeight : ℚ) - 2 := by norm_num [panelHeight]
      exact mul_le_mul_of_nonneg_right hdiv h2
    have harg2 : (0 : ℚ) ≤ v / M2 * ((panelHeight : ℚ) - 2) := by
      have h1 : (0 : ℚ) ≤ v / M2 := le_of_lt (div_pos hv hM2pos)
      have h2 : (0 : ℚ) ≤ (panelHeight : ℚ) - 2 := by norm_num [panelHeight]
      exact mul_nonneg h1 h2
    have hvh2 : vh nanI M2 (F.val v) = ⌊v / M2 * ((panelHeight : ℚ) - 2)⌋ - 1 := by
      simp [vh, ne_of_gt hM2pos, ftrunc, harg2]
    rw [hvh, hvh2]
    exact sub_le_sub_right (Int.floor_le_floor hmul) 1

/-- Counterexample for C5 as stated: ring `[[1], [3]]` has maximum 3; the
column for value 1 is drawn with pixel height `13 = trunc((1/3)*43) - 1`,
whereas the claim's `v / M * panelHeight` is `15`. -/
theorem column_height_claim_cex :
    (plotRing 0 [some [F.val 1], some [F.val 3]] 0 fg).segs.getD 0 ⟨0, 0, 0, noDataGreen⟩
      = ⟨5, 51, 64, plotColors.getD 0 fg⟩
    ∧ ((baseY 1 - 51 : ℤ) : ℚ) ≠ 1 / 3 * ((panelHeight : ℤ) : ℚ) := by
  with_unfolding_all decide

/-- Witness for C5 (amended): value 1 under ring maximum 3 in a
first-series column. -/
theorem column_height_scaling_witness :
    (drawVal 0 3 1 0 [] ⟨fg, []⟩ 0 (F.val 1)).segs
      = ([] : List Seg) ++ [⟨windowMargin + 0, baseY 1 - vh 0 3 (F.val 1), baseY 1,
          plotColors.getD 0 fg⟩]
    ∧ ((vh 0 3 (F.val 1) : ℚ) ≤ 1 / 3 * ((panelHeight : ℚ) - 2) - 1)
    ∧ (1 / 3 * ((panelHeight : ℚ) - 2) - 2 < (vh 0 3 (F.val 1) : ℚ))
    ∧ (∀ M2 : ℚ, 3 < M2 → vh 0 M2 (F.val 1) ≤ vh 0 3 (F.val 1)) :=
  column_height_scaling 0 3 1 0 [] ⟨fg, []⟩ 0 1
    (by norm_num) (by norm_num) (Or.inl rfl)

/-! ## Claim C8 -/

/-- A run of ticks in which the probe never has a sample ready. -/
def staleTicks (N k : ℕ) (fresh : Color) : RingBuf × Color :=
  (List.range k).foldl (fun p _ => collectStep p.1 none fresh) (ringNew N, fresh)

theorem staleTicks_fst (N : ℕ) (fresh : Color) :
    ∀ k, (staleTicks N k fresh).1 = ringNew N := by
  intro k
  induction k with
  | zero => rfl
  | succ m ih =>
      rw [staleTicks, List.range_succ, List.foldl_append, List.foldl_cons, List.foldl_nil]
      rw [staleTicks] at ih
      exact ih

/-- Columns whose sample list is empty draw nothing and leave the
drawing state untouched. -/
theorem drawfold_nil_data (nanI : ℤ) (maxv : ℚ) (vs : ℤ) :
    ∀ (l : List (ℕ × Sample)) (pst : PassSt), (∀ p ∈ l, p.2 = []) →
      (l.foldl (fun (p : PassSt) iv =>
        { data := iv.2, st := drawSample nanI maxv vs (iv.1 : ℤ) p.data iv.2 p.st }) pst).st
        = pst.st := by
  intro l
  induction l with
  | nil => intro pst _; rfl
  | cons a t ih =>
      intro pst hall
      rw [List.foldl_cons]
      have ha : a.2 = [] := hall a (List.mem_cons_self a t)
      rw [ih _ (fun p hp => hall p (List.mem_cons_of_mem a hp))]
      rw [ha]
      rfl

/-- Claim C8: a panel whose probe never delivers a sample: after any
positive number of ticks the ring is still the all-nil fresh ring and
the tick handed `errColor` to the renderer; the render pass then runs on
only empty slots — the positive-sample count is zero, the average is the
NaN of `0.0/0.0` (no average available), no column segment is drawn, and
the border carries the stale color — with every function total, so
nothing crashes. -/
theorem never_ready_probe_render (N k : ℕ) (fresh : Color) (nanI tgtnum : ℤ)
    (hk : 0 < k) :
    staleTicks N k fresh = (ringNew N, errColor)
    ∧ (statsList (ringSamples (ringNew N))).cnt = 0
    ∧ (plotRing nanI (ringNew N) tgtnum errColor).avgF = F.nan
    ∧ (plotRing nanI (ringNew N) tgtnum errColor).segs = []
    ∧ (plotRing nanI (ringNew N) tgtnum errColor).borderColor = errColor := by
  have hsamples : ringSamples (ringNew N) = List.replicate N [] := by
    simp [ringSamples, ringNew, List.map_replicate]
  have hflat : (List.replicate N ([] : Sample)).flatten = [] := by
    induction N with
    | zero => rfl
    | succ m ih => simp [List.replicate_succ, ih]
  have hstats : statsList (ringSamples (ringNew N)) = statsInit := by
    rw [hsamples, statsList_eq_fold, hflat]
    rfl
  refine ⟨?_, ?_, ?_, ?_, rfl⟩
  · rcases k with _ | m
    · exact absurd hk (by omega)
    · have hfst := staleTicks_fst N fresh m
      rw [staleTicks, List.range_succ, List.foldl_append, List.foldl_cons, List.foldl_nil]
      rw [staleTicks] at hfst
      show (collectStep _ none fresh) = (ringNew N, errColor)
      rw [collectStep, hfst]
  · rw [hstats]
    rfl
  · show statsAvg (statsList (ringSamples (ringNew N))) = F.nan
    rw [hstats]
    rfl
  · show drawPass nanI (statsList (ringSamples (ringNew N))).maxv
      (tgtnum * targetSize + 1) errColor (ringSamples (ringNew N)) = []
    rw [hsamples]
    have hall : ∀ p ∈ (List.replicate N ([] : Sample)).enum, p.2 = ([] : Sample) := by
      intro p hp
      rcases p with ⟨i, x⟩
      have h := List.mem_enum hp
      rcases h with ⟨hlt, hx⟩
      rw [hx, List.getElem_replicate]
    unfold drawPass
    rw [drawfold_nil_data _ _ _ _ _ hall]

/-- Witness for C8: one stale tick on a size-3 ring of a panel at slot 0. -/
theorem never_ready_probe_render_witness :
    staleTicks 3 1 fg = (ringNew 3, errColor)
    ∧ (statsList (ringSamples (ringNew 3))).cnt = 0
    ∧ (plotRing 0 (ringNew 3) 0 errColor).avgF = F.nan
    ∧ (plotRing 0 (ringNew 3) 0 errColor).segs = []
    ∧ (plotRing 0 (ringNew 3) 0 errColor).borderColor = errColor :=
  never_ready_probe_render 3 1 fg 0 0 (by decide)

/-! ## Helper lemmas: panel parsing -/

theorem parsePanels_ok_mapM {args : List String} {ps : List Panel}
    (h : parsePanels args = Except.ok ps) : args.mapM parseOne = Except.ok ps := by
  unfold parsePanels at h
  split_ifs at h
  exact h

theorem parseOne_error_of_bad {a : String} (hbad : (splitColon a.data).length ≠ 2) :
    parseOne a = Except.error ("Could not parse panel: " ++ quoteStr a) := by
  have hlen : ((splitColon a.data).map List.asString).length ≠ 2 := by
    rw [List.length_map]
    exact hbad
  rw [parseOne, if_pos hlen]

theorem parseOne_ok_cap {a : String} {p : Panel} (h : parseOne a = Except.ok p) :
    p.ringCap = (panelWidth - 2).toNat := by
  unfold parseOne at h
  split_ifs at h
  all_goals cases h
  all_goals rfl

/-- Every element of a successful `mapM parseOne` run comes from a
successful `parseOne`, and every argument parsed successfully. -/
theorem mapM_ok_forall (args : List String) : ∀ (ps : List Panel),
    args.mapM parseOne = Except.ok ps →
    (∀ a ∈ args, ∃ p, parseOne a = Except.ok p)
    ∧ (∀ p ∈ ps, ∃ a, parseOne a = Except.ok p) := by
  induction args with
  | nil =>
      intro ps h
      refine ⟨fun a ha => absurd ha (List.not_mem_nil a), fun p hp => ?_⟩
      simp only [List.mapM_nil] at h
      cases h
      exact absurd hp (List.not_mem_nil p)
  | cons b t ih =>
      intro ps h
      rw [List.mapM_cons] at h
      cases hb : parseOne b with
      | error e =>
          rw [hb] at h
          cases h
      | ok p0 =>
          rw [hb] at h
          cases ht : t.mapM parseOne with
          | error e =>
              rw [ht] at h
              cases h
          | ok rest =>
              rw [ht] at h
              cases h
              rcases ih rest ht with ⟨hfwd, hbwd⟩
              constructor
              · intro a ha
                rcases List.mem_cons.mp ha with rfl | ha2
                · exact ⟨p0, hb⟩
                · exact hfwd a ha2
              · intro p hp
                rcases List.mem_cons.mp hp with rfl | hp2
                · exact ⟨b, hb⟩
                · exact hbwd p hp2

/-! ## Claim C6 -/

/-- Counterexample for C6 as stated: parsing one panel constructs a ring
of capacity `168 = panelWidth - 2`, but `windowWidth - 2 = 178`. -/
theorem ring_capacity_claim_cex :
    parsePanels ["sine:localhost"] = Except.ok [⟨"sine", "localhost", 168⟩]
    ∧ (168 : ℤ) ≠ windowWidth - 2 := by
  constructor
  · with_unfolding_all rfl
  · decide

/-- Claim C6 (amended): every panel constructed by `parsePanels` gets a
ring of fixed capacity `panelWidth - 2 = windowWidth - 2*windowMargin - 2`
slots — the interior pixel width of the plot's border rectangle — rather
than `windowWidth - 2`. -/
theorem ring_capacity (args : List String) (ps : List Panel) (p : Panel)
    (hok : parsePanels args = Except.ok ps) (hp : p ∈ ps) :
    (p.ringCap : ℤ) = windowWidth - 2 * windowMargin - 2 := by
  obtain ⟨a, ha⟩ := (mapM_ok_forall args ps (parsePanels_ok_mapM hok)).2 p hp
  rw [parseOne_ok_cap ha]
  decide

/-- Witness for C6 (amended): the panel parsed from `sine:localhost`. -/
theorem ring_capacity_witness :
    ((Panel.mk "sine" "localhost" 168).ringCap : ℤ) = windowWidth - 2 * windowMargin - 2 :=
  ring_capacity ["sine:localhost"] [⟨"sine", "localhost", 168⟩] ⟨"sine", "localhost", 168⟩
    (by with_unfolding_all rfl) (List.mem_singleton.mpr rfl)

/-! ## Claim C7 -/

/-- Claim C7: an argument list containing a token that does not split
into exactly two colon-separated parts never yields a panel list —
parsing returns an error — and the scenario-C call on `badtoken`
alone fails with the error naming that token. -/
theorem malformed_token_fails (args : List String) (t : String)
    (hmem : t ∈ args) (hbad : (splitColon t.data).length ≠ 2) :
    (∃ e, parsePanels args = Except.error e)
    ∧ parsePanels ["badtoken"] = Except.error "Could not parse panel: \"badtoken\"" := by
  constructor
  · cases hres : parsePanels args with
    | error e => exact ⟨e, rfl⟩
    | ok ps =>
        exfalso
        obtain ⟨p, hp⟩ :=
          (mapM_ok_forall args ps (parsePanels_ok_mapM hres)).1 t hmem
        rw [parseOne_error_of_bad hbad] at hp
        exact Except.noConfusion hp
  · with_unfolding_all rfl

/-- Witness for C7: the list `["badtoken"]` itself. -/
theorem malformed_token_fails_witness :
    (∃ e, parsePanels ["badtoken"] = Except.error e)
    ∧ parsePanels ["badtoken"] = Except.error "Could not parse panel: \"badtoken\"" :=
  malformed_token_fails ["badtoken"] "badtoken" (List.mem_singleton.mpr rfl)
    (by with_unfolding_all decide)

/-! ## Claim C9 -/

/-- Counterexample for C9 as stated: the malformed color string `xyz`
(not a valid 6-hex-digit color) is silently ignored by the option
handling, and an ignored option is not the fatal-exit outcome. -/
theorem color_option_claim_cex :
    applyColorOption "xyz" = ColorOutcome.ignored
    ∧ ColorOutcome.ignored ≠ ColorOutcome.fatalExit := by
  with_unfolding_all decide

/-- Claim C9 (amended): only a color string of byte length exactly 6 is
ever parsed; such a string that fails the three-field hex scan is fatal
(error reported, non-zero exit before rendering), one that scans has its
components applied, and a string of any other length — malformed or not —
is silently ignored, keeping the default color. -/
theorem color_option_outcomes (s : String) :
    (s.utf8ByteSize ≠ 6 → applyColorOption s = ColorOutcome.ignored)
    ∧ (s.utf8ByteSize = 6 → sscanfHex3 s = none →
        applyColorOption s = ColorOutcome.fatalExit)
    ∧ (∀ r g b, s.utf8ByteSize = 6 → sscanfHex3 s = some (r, g, b) →
        applyColorOption s = ColorOutcome.applied r g b) := by
  refine ⟨?_, ?_, ?_⟩
  · intro h
    rw [applyColorOption, if_neg h]
  · intro h hscan
    rw [applyColorOption, if_pos h, hscan]
  · intro r g b h hscan
    rw [applyColorOption, if_pos h, hscan]

/-- Witness for C9 (amended): `zzzzzz` has byte length 6 and fails the
hex scan, so the option handling exits fatally on it. -/
theorem color_option_outcomes_witness :
    applyColorOption "zzzzzz" = ColorOutcome.fatalExit :=
  (color_option_outcomes "zzzzzz").2.1 (by with_unfolding_all decide)
    (by with_unfolding_all decide)

/-! ## Claim C10 -/

theorem parseOne_ok_of_wf (a : String)
    (h1 : (splitColon a.data).length = 2)
    (h2 : probeNames.contains (((splitColon a.data).map List.asString).getD 0 "")) :
    parseOne a = Except.ok
      ⟨((splitColon a.data).map List.asString).getD 0 "",
       ((splitColon a.data).map List.asString).getD 1 "", (panelWidth - 2).toNat⟩ := by
  have hlen : ¬((splitColon a.data).map List.asString).length ≠ 2 := by
    rw [List.length_map, h1]
    omega
  rw [parseOne, if_neg hlen, if_pos h2]

theorem mapM_ok_of_all : ∀ (args : List String),
    (∀ a ∈ args, ∃ p, parseOne a = Except.ok p) →
    ∃ ps, args.mapM parseOne = Except.ok ps ∧ ps.length = args.length := by
  intro args
  induction args with
  | nil => intro _; exact ⟨[], rfl, rfl⟩
  | cons b t ih =>
      intro h
      obtain ⟨p, hp⟩ := h b (List.mem_cons_self b t)
      obtain ⟨ps, hps, hlen⟩ := ih (fun a ha => h a (List.mem_cons_of_mem b ha))
      refine ⟨p :: ps, ?_, by simp [hlen]⟩
      rw [List.mapM_cons, hp, hps]
      rfl

/-- Claim C10: panel parsing accepts between 1 and 255 targets
inclusive: the empty list fails with `No args specified`, any list of
more than 255 arguments fails with `Too many targets specified` (and no
panel is constructed), and any list of 1 to 255 well-formed
`type:target` tokens parses into one panel per token. -/
theorem target_count_bounds :
    parsePanels [] = Except.error "No args specified"
    ∧ (∀ args : List String, 255 < args.length →
        parsePanels args = Except.error "Too many targets specified")
    ∧ (∀ args : List String, 1 ≤ args.length → args.length ≤ 255 →
        (∀ a ∈ args, (splitColon a.data).length = 2
          ∧ probeNames.contains (((splitColon a.data).map List.asString).getD 0 "")) →
        ∃ ps, parsePanels args = Except.ok ps ∧ ps.length = args.length) := by
  refine ⟨rfl, ?_, ?_⟩
  · intro args h
    rw [parsePanels, if_neg (by omega), if_pos h]
  · intro args h1 h255 hwf
    rw [parsePanels, if_neg (by omega), if_neg (by omega)]
    exact mapM_ok_of_all args
      (fun a ha => ⟨_, parseOne_ok_of_wf a (hwf a ha).1 (hwf a ha).2⟩)

/-- Witness for C10: 256 copies of a token overflow the bound, and the
single well-formed token `sine:localhost` parses into one panel. -/
theorem target_count_bounds_witness :
    parsePanels (List.replicate 256 "x") = Except.error "Too many targets specified"
    ∧ ∃ ps, parsePanels ["sine:localhost"] = Except.ok ps ∧ ps.length = 1 :=
  ⟨target_count_bounds.2.1 (List.replicate 256 "x")
      (by rw [List.length_replicate]; omega),
   (by
      have h := target_count_bounds.2.2 ["sine:localhost"] (by decide) (by decide)
        (by
          intro a ha
          rw [List.mem_singleton.mp ha]
          exact ⟨by with_unfolding_all decide, by with_unfolding_all decide⟩)
      simpa using h)⟩

end Netwatch
